import Mathlib

/-!
Shallow embedding of the dylibtree dependency walker (`src/main.rs`).

Paths are modelled as `String`s. Rust `PathBuf`/`str` primitives used by the
source are embedded as character-list functions (`pushPath`, `parentPath`,
`stripSlash`, `afterFirstSlash`, `strStartsWith`).  The filesystem and the
Mach-O parser (goblin) are modelled by an `Env` record: `Env.read` combines
`fs::read` with `load_binary` (returning the parsed library list and rpath
list, or a fatal read/parse error), and `Env.pathExists` models
`Path::exists`.  `Option` results model Rust panics of the `unwrap` calls in
`versioned_path` / `get_potential_paths` (`none` = panic).  Terminal output
is modelled as the ordered list of printed lines; existence probes are
additionally collected so that "was resolved/probed" is observable.
-/

/-- Models Rust `str::starts_with` on the character level. -/
def strStartsWith (s pre : String) : Bool :=
  List.isPrefixOf pre.data s.data

/-- Models Rust `str::strip_prefix('/')`: `none` means the Rust call would
return `None` (and an `unwrap` on it would panic). -/
def stripSlash (s : String) : Option String :=
  match s.data with
  | c :: rest => if c = '/' then some (String.mk rest) else none
  | [] => none

/-- Models `str::split_once('/').1`: everything after the first `'/'`
(empty if there is no `'/'`; the source only calls it when a `'/'` is
guaranteed by a `starts_with` check). -/
def afterFirstSlash (s : String) : String :=
  String.mk ((s.data.dropWhile (fun c => c ≠ '/')).tail)

/-- Models `PathBuf::push`: pushing an absolute path replaces the whole
path; otherwise a `/` separator is inserted when needed. -/
def pushPath (base p : String) : String :=
  if strStartsWith p "/" then p
  else if base.data = [] then p
  else if base.data.getLast? = some '/' then String.mk (base.data ++ p.data)
  else String.mk (base.data ++ '/' :: p.data)

/-- Models `Path::parent` (as `Option`): trailing separators are dropped,
then the last component is removed.  `none` for the root `/` and the empty
path, matching the cases where `parent().unwrap()` panics. -/
def parentPath (p : String) : Option String :=
  let cs := p.data.reverse.dropWhile (fun c => c = '/')
  if cs = [] then none
  else
    let rest := cs.dropWhile (fun c => c ≠ '/')
    let rest2 := rest.dropWhile (fun c => c = '/')
    if rest2 = [] then
      if rest = [] then some "" else some "/"
    else some (String.mk rest2.reverse)

/-- Splits a character list at `'/'` (always returns at least one, possibly
empty, segment), mirroring how the regex `[^/]+\.framework/` can only match
inside a single path segment. -/
def splitSlash : List Char → List (List Char)
  | [] => [[]]
  | c :: cs =>
    if c = '/' then [] :: splitSlash cs
    else
      match splitSlash cs with
      | [] => [[c]]
      | s :: ss => (c :: s) :: ss

/-- Inverse of `splitSlash`: interleaves `'/'` between segments. -/
def joinSlash : List (List Char) → List Char
  | [] => []
  | [s] => s
  | s :: s' :: ss => s ++ '/' :: joinSlash (s' :: ss)

/-- One path segment matches the regex `[^/]+\.framework/` (up to its
trailing separator) iff it ends in `.framework` with a nonempty stem. -/
def matchesFramework (seg : List Char) : Bool :=
  decide (10 < seg.length) && List.isSuffixOf ".framework".data seg

/-- Segment-level embedding of
`Regex::new("[^/]+\.framework/").replace_all(lib, "${0}Versions/v/")`:
every non-final segment matching the pattern gets `Versions/<v>/` inserted
after it.  (`replace_all` rewrites each non-overlapping match, and each
match is exactly one matching segment plus its trailing slash.) -/
def rewriteSegs (version : List Char) : List (List Char) → List (List Char)
  | [] => []
  | [s] => [s]
  | s :: s' :: ss =>
    if matchesFramework s then
      s :: "Versions".data :: version :: rewriteSegs version (s' :: ss)
    else s :: rewriteSegs version (s' :: ss)

/-- The rewritten framework path as a string. -/
def frameworkRewrite (lib version : String) : String :=
  String.mk (joinSlash (rewriteSegs version.data (splitSlash lib.data)))

/-- Embedding of `versioned_path` (src/main.rs:56-66).  `none` models the
panic of `strip_prefix('/').unwrap()` when a prefix is supplied and the
rewritten path is not absolute. -/
def versioned_path (pfx : Option String) (lib version : String) : Option String :=
  let fwv := frameworkRewrite lib version
  match pfx with
  | some p =>
    match stripSlash fwv with
    | none => none
    | some s => some (pushPath p s)
  | none => some fwv

/-- Embedding of the `@rpath/` loop of `get_potential_paths`
(src/main.rs:78-100).  `none` models the panics:
`executable_path.parent().unwrap()` for `@executable_path/`/`@loader_path/`
entries, and `rpath.strip_prefix('/').unwrap()` for other entries when a
shared-cache root is configured. -/
def rpathCandidates (shared_cache_root : Option String) (executable_path : String)
    (libSuffix : String) : List String → Option (List String)
  | [] => some []
  | rp :: rest =>
    if strStartsWith rp "@executable_path/" || strStartsWith rp "@loader_path/" then
      match parentPath executable_path with
      | none => none
      | some dir =>
        let p := pushPath (pushPath dir (afterFirstSlash rp)) libSuffix
        (rpathCandidates shared_cache_root executable_path libSuffix rest).map
          (fun l => p :: l)
    else
      let p := pushPath rp libSuffix
      match shared_cache_root with
      | none =>
        (rpathCandidates shared_cache_root executable_path libSuffix rest).map
          (fun l => p :: l)
      | some r =>
        match stripSlash rp with
        | none => none
        | some rp' =>
          let p2 := pushPath (pushPath r rp') libSuffix
          (rpathCandidates shared_cache_root executable_path libSuffix rest).map
            (fun l => p :: p2 :: l)

/-- Embedding of `get_potential_paths` (src/main.rs:68-134).  Returns the
ordered candidate list, or `none` when the Rust function would panic. -/
def get_potential_paths (shared_cache_root : Option String) (executable_path : String)
    (lib : String) (rpaths : List String) : Option (List String) :=
  if strStartsWith lib "@rpath/" then
    rpathCandidates shared_cache_root executable_path (afterFirstSlash lib) rpaths
  else do
    let a ← versioned_path none lib "A"
    let b ← versioned_path none lib "B"
    let c ← versioned_path none lib "C"
    let d ← versioned_path none lib "D"
    let base := [lib, a, b, c, d]
    match shared_cache_root with
    | none => some base
    | some r => do
      let stripped ← stripSlash lib
      let ra ← versioned_path (some r) lib "A"
      let rb ← versioned_path (some r) lib "B"
      let rc ← versioned_path (some r) lib "C"
      let rd ← versioned_path (some r) lib "D"
      let iosLit := pushPath (pushPath r "System/iOSSupport") lib
      let iosRoot := pushPath r "System/iOSSupport"
      let ia ← versioned_path (some iosRoot) lib "A"
      let ib ← versioned_path (some iosRoot) lib "B"
      let ic ← versioned_path (some iosRoot) lib "C"
      let idv ← versioned_path (some iosRoot) lib "D"
      some (base ++ [pushPath r stripped, ra, rb, rc, rd, iosLit, ia, ib, ic, idv])

/-- Embedding of `should_ignore` (src/main.rs:136-144). -/
def should_ignore (lib : String) (ignores : List String) : Bool :=
  ignores.any (fun p => strStartsWith lib p)

/-- Embedding of `is_system_dependency` (src/main.rs:146-154). -/
def is_system_dependency (lib : String) : Bool :=
  ["/usr/lib/", "/System", "@rpath/libswift"].any (fun p => strStartsWith lib p)

/-- The relevant result of `fs::read` + `load_binary`: the ordered load
commands (`binary.libs`) and the ordered rpath list (`binary.rpaths`). -/
structure MachBinary where
  libs : List String
  rpaths : List String
deriving DecidableEq

/-- The external world: filesystem plus Mach-O parser.  `read` returns the
parsed binary or a fatal read/parse error message; `pathExists` models
`Path::exists`. -/
structure Env where
  read : String → Except String MachBinary
  pathExists : String → Bool

/-- The walker configuration taken from the CLI. -/
structure Config where
  shared_cache_root : Option String
  max_depth : Nat
  ignores : List String
  exclude_all_duplicates : Bool
  include_system_dependencies : Bool

/-- How a run of `print_dylib_paths` can fail: a propagated read/parse
error (Rust `Err`), or a panic from an `unwrap` in candidate generation. -/
inductive RunError where
  | ioError (msg : String)
  | panicked
deriving DecidableEq

/-- Result of a traversal: printed lines (in order), probed candidate paths
(in order), and the final visited set. -/
abbrev WalkResult := List String × List String × List String

/-- Models `HashSet::insert`: membership-preserving insertion. -/
def insertV (v : List String) (x : String) : List String :=
  if v.contains x then v else v ++ [x]

/-- Models `HashSet::extend`: insert every element of `w` into `v`. -/
def extendV (v w : List String) : List String :=
  w.foldl insertV v

/-- Models the candidate loop of src/main.rs:207-226: the list of paths
probed with `Path::exists` (in order, up to and including the first hit)
and the first existing candidate, if any. -/
def probeList (ex : String → Bool) : List String → List String × Option String
  | [] => ([], none)
  | p :: ps =>
    if ex p then ([p], some p)
    else
      let r := probeList ex ps
      (p :: r.1, r.2)

/-- `n` spaces, modelling `" ".repeat(n)`. -/
def indentStr (n : Nat) : String :=
  String.mk (List.replicate n ' ')

/-- Embedding of the `for dylib in binary.libs` loop of `print_dylib_paths`
(src/main.rs:176-231), including the inlined recursive call
(src/main.rs:211-222): reading the resolved child, printing its header at
the child's indentation, walking its own libs at `depth + 1`, and merging
the returned visited set back before the remaining siblings are
processed. -/
def processLibs (env : Env) (cfg : Config) (actual_path canonical_path : String)
    (rpaths : List String) (depth : Nat) (libs : List String) (visited : List String) :
    Except RunError WalkResult :=
  match libs with
  | [] => .ok ([], [], visited)
  | dylib :: rest =>
    if dylib = "self" ∨ dylib = canonical_path then
      processLibs env cfg actual_path canonical_path rpaths depth rest visited
    else if _h : cfg.max_depth < depth + 1 then
      processLibs env cfg actual_path canonical_path rpaths depth rest visited
    else if should_ignore dylib cfg.ignores then
      processLibs env cfg actual_path canonical_path rpaths depth rest visited
    else if cfg.include_system_dependencies = false ∧ is_system_dependency dylib then
      processLibs env cfg actual_path canonical_path rpaths depth rest visited
    else if visited.contains dylib then
      if cfg.exclude_all_duplicates then
        processLibs env cfg actual_path canonical_path rpaths depth rest visited
      else
        match processLibs env cfg actual_path canonical_path rpaths depth rest visited with
        | .error e => .error e
        | .ok (ls, pr, v) => .ok ((indentStr (depth * 2 + 2) ++ dylib) :: ls, pr, v)
    else
      let visited1 := insertV visited dylib
      match get_potential_paths cfg.shared_cache_root actual_path dylib rpaths with
      | none => .error .panicked
      | some cands =>
        let probed := (probeList env.pathExists cands).1
        match (probeList env.pathExists cands).2 with
        | some fp =>
          match env.read fp with
          | .error msg => .error (.ioError msg)
          | .ok bin =>
            match processLibs env cfg fp dylib bin.rpaths (depth + 1) bin.libs visited1 with
            | .error e => .error e
            | .ok (cls, cpr, cv) =>
              let visited2 := extendV visited1 cv
              match processLibs env cfg actual_path canonical_path rpaths depth rest visited2 with
              | .error e => .error e
              | .ok (rls, rpr, rv) =>
                .ok ((indentStr ((depth + 1) * 2) ++ dylib ++ ":") :: cls ++ rls,
                     probed ++ cpr ++ rpr, rv)
        | none =>
          match processLibs env cfg actual_path canonical_path rpaths depth rest visited1 with
          | .error e => .error e
          | .ok (rls, rpr, rv) =>
            .ok ((indentStr (depth * 2 + 2) ++ dylib ++ ": warning: not found") :: rls,
                 probed ++ rpr, rv)
termination_by (cfg.max_depth + 1 - depth, libs.length)
decreasing_by
  all_goals simp_wf
  all_goals omega

/-- Embedding of `print_dylib_paths` (src/main.rs:156-234): read and parse
the binary, print its header at `2 * depth`, then process its load
commands; returns `(lines, probes, visited)` on success. -/
def print_dylib_paths (env : Env) (cfg : Config) (actual_path canonical_path : String)
    (depth : Nat) (visited : List String) : Except RunError WalkResult :=
  match env.read actual_path with
  | .error msg => .error (.ioError msg)
  | .ok bin =>
    match processLibs env cfg actual_path canonical_path bin.rpaths depth bin.libs visited with
    | .error e => .error e
    | .ok (ls, pr, v) =>
      .ok ((indentStr (depth * 2) ++ canonical_path ++ ":") :: ls, pr, v)

/-- True iff some non-final `/`-segment of `lib` matches the framework
pattern `[^/]+\.framework/` (and would therefore be rewritten). -/
def hasFrameworkSegment (lib : String) : Bool :=
  ((splitSlash lib.data).dropLast).any matchesFramework

/-- Two binaries `/A` and `/B` that each list the other as a load command:
the minimal cyclic dependency graph. -/
def envCycle : Env where
  read p :=
    if p = "/A" then .ok ⟨["/B"], []⟩
    else if p = "/B" then .ok ⟨["/A"], []⟩
    else .error "unreadable"
  pathExists p := p == "/A" || p == "/B"

/-- Default walk configuration: no shared-cache root, maximum depth 10, no
ignore filter, duplicates printed, system dependencies excluded. -/
def cfgPlain : Config := ⟨none, 10, [], false, false⟩

/-- A root binary `/R` with a single dependency `/D` that exists on disk
and parses as a leaf binary. -/
def envC2 : Env where
  read p :=
    if p = "/R" then .ok ⟨["/D"], []⟩
    else if p = "/D" then .ok ⟨[], []⟩
    else .error "unreadable"
  pathExists p := p == "/R" || p == "/D"

/-- `cfgPlain` with maximum depth 0. -/
def cfgC2 : Config := ⟨none, 0, [], false, false⟩

/-- A root `/R` whose dependency `/D` exists on disk but fails to
read/parse with error message `boom`. -/
def envErr : Env where
  read p := if p = "/R" then .ok ⟨["/D"], []⟩ else .error "boom"
  pathExists p := p == "/D"

/-- The block of candidates contributed by ONE search-path entry of the
`@rpath/` loop of `get_potential_paths` (src/main.rs:78-100), read off the
loop body: one joined path for `@executable_path/`/`@loader_path/` entries
(no shared-cache variant — that branch ends in `continue` before the
rebasing block), and the joined path plus its shared-cache-rebased variant
for other entries when a root is configured.  `none` models the entry's
`unwrap` panics. -/
def entryCandidates (shared_cache_root : Option String) (executable_path : String)
    (libSuffix rp : String) : Option (List String) :=
  if strStartsWith rp "@executable_path/" || strStartsWith rp "@loader_path/" then
    match parentPath executable_path with
    | none => none
    | some dir => some [pushPath (pushPath dir (afterFirstSlash rp)) libSuffix]
  else
    let p := pushPath rp libSuffix
    match shared_cache_root with
    | none => some [p]
    | some r =>
      match stripSlash rp with
      | none => none
      | some rp' => some [p, pushPath (pushPath r rp') libSuffix]

/-- Concatenates per-entry candidate blocks in order; any panicking entry
makes the whole list `none`, as a panic aborts `get_potential_paths`. -/
def combineEntries : List (Option (List String)) → Option (List String)
  | [] => some []
  | none :: _ => none
  | some a :: os => (combineEntries os).map (fun b => a ++ b)

theorem splitSlash_ne_nil (cs : List Char) : splitSlash cs ≠ [] := by
  induction cs with
  | nil => simp [splitSlash]
  | cons c cs ih =>
    rw [splitSlash]
    split
    · simp
    · split
      · simp
      · simp

theorem joinSlash_splitSlash (cs : List Char) : joinSlash (splitSlash cs) = cs := by
  induction cs with
  | nil => rfl
  | cons c cs ih =>
    obtain ⟨s, ss, hss⟩ : ∃ s ss, splitSlash cs = s :: ss := by
      cases h : splitSlash cs with
      | nil => exact absurd h (splitSlash_ne_nil cs)
      | cons s ss => exact ⟨s, ss, rfl⟩
    rw [hss] at ih
    rw [splitSlash]
    by_cases hc : c = '/'
    · rw [if_pos hc, hss, joinSlash, List.nil_append, ih, hc]
    · rw [if_neg hc, hss]
      cases ss with
      | nil =>
        rw [joinSlash] at ih
        rw [joinSlash, ih]
      | cons t ts =>
        rw [joinSlash] at ih
        rw [joinSlash, List.cons_append, ih]

theorem rewriteSegs_ne_nil (v : List Char) (s : List Char) (ss : List (List Char)) :
    rewriteSegs v (s :: ss) ≠ [] := by
  cases ss with
  | nil => simp [rewriteSegs]
  | cons t ts =>
    rw [rewriteSegs]
    split <;> simp

theorem rewriteSegs_id (v : List Char) :
    ∀ segs, (∀ s ∈ segs.dropLast, matchesFramework s = false) → rewriteSegs v segs = segs
  | [], _ => rfl
  | [_], _ => rfl
  | s :: s' :: ss, h => by
    have hs : matchesFramework s = false := h s (by simp [List.dropLast])
    rw [rewriteSegs, if_neg (by simp [hs])]
    have htail : ∀ t ∈ (s' :: ss).dropLast, matchesFramework t = false := by
      intro t ht
      exact h t (by simp [List.dropLast, ht])
    rw [rewriteSegs_id v (s' :: ss) htail]

theorem frameworkRewrite_id (lib : String) (h : hasFrameworkSegment lib = false)
    (v : String) : frameworkRewrite lib v = lib := by
  unfold frameworkRewrite
  have hseg : ∀ s ∈ (splitSlash lib.data).dropLast, matchesFramework s = false := by
    unfold hasFrameworkSegment at h
    simpa [List.any_eq_false] using h
  rw [rewriteSegs_id v.data _ hseg, joinSlash_splitSlash]

theorem stripSlash_none (s : String) (h : strStartsWith s "/" = false) :
    stripSlash s = none := by
  unfold strStartsWith at h
  have hd : ("/").data = ['/'] := by decide
  rw [hd] at h
  cases hs : s.data with
  | nil =>
    unfold stripSlash
    rw [hs]
  | cons c cs =>
    rw [hs, List.isPrefixOf] at h
    by_cases hc : c = '/'
    · subst hc
      simp [List.isPrefixOf] at h
    · unfold stripSlash
      rw [hs]
      exact if_neg hc

theorem stripSlash_some (s : String) (h : strStartsWith s "/" = true) :
    ∃ cs, s.data = '/' :: cs ∧ stripSlash s = some (String.mk cs) := by
  unfold strStartsWith at h
  have hd : ("/").data = ['/'] := by decide
  rw [hd] at h
  cases hs : s.data with
  | nil =>
    rw [hs] at h
    simp [List.isPrefixOf] at h
  | cons c cs =>
    rw [hs, List.isPrefixOf] at h
    have hc : c = '/' := by
      rw [Bool.and_eq_true] at h
      have h1 := h.1
      rw [beq_iff_eq] at h1
      exact h1.symm
    subst hc
    refine ⟨cs, rfl, ?_⟩
    unfold stripSlash
    rw [hs]
    exact if_pos rfl

theorem frameworkRewrite_slash (lib : String) (h : strStartsWith lib "/" = true)
    (v : String) : ∃ cs, (frameworkRewrite lib v).data = '/' :: cs := by
  obtain ⟨cs, hdata, _⟩ := stripSlash_some lib h
  unfold frameworkRewrite
  rw [hdata, splitSlash, if_pos rfl]
  obtain ⟨s, ss, hss⟩ : ∃ s ss, splitSlash cs = s :: ss := by
    cases hsp : splitSlash cs with
    | nil => exact absurd hsp (splitSlash_ne_nil cs)
    | cons s ss => exact ⟨s, ss, rfl⟩
  rw [hss, rewriteSegs, if_neg (by decide)]
  obtain ⟨t, ts, hts⟩ : ∃ t ts, rewriteSegs v.data (s :: ss) = t :: ts := by
    cases hrw : rewriteSegs v.data (s :: ss) with
    | nil => exact absurd hrw (rewriteSegs_ne_nil v.data s ss)
    | cons t ts => exact ⟨t, ts, rfl⟩
  rw [hts, joinSlash, List.nil_append]
  exact ⟨_, rfl⟩

theorem versioned_path_none (lib v : String) :
    versioned_path none lib v = some (frameworkRewrite lib v) := rfl

theorem versioned_path_some (p lib v : String) (h : strStartsWith lib "/" = true) :
    ∃ q, versioned_path (some p) lib v = some q := by
  obtain ⟨cs, hdata⟩ := frameworkRewrite_slash lib h v
  have hstrip : stripSlash (frameworkRewrite lib v) = some (String.mk cs) := by
    unfold stripSlash
    rw [hdata]
    exact if_pos rfl
  simp only [versioned_path]
  rw [hstrip]
  exact ⟨_, rfl⟩

theorem subset_insertV (v : List String) (x : String) : v ⊆ insertV v x := by
  unfold insertV
  split
  · exact List.Subset.refl v
  · exact List.subset_append_left v [x]

theorem mem_insertV (v : List String) (x : String) : x ∈ insertV v x := by
  unfold insertV
  split
  · rename_i h
    exact List.elem_iff.mp h
  · simp

theorem subset_extendV (w : List String) : ∀ v, v ⊆ extendV v w := by
  induction w with
  | nil => exact fun v => List.Subset.refl v
  | cons y ys ih =>
    intro v
    have h1 : extendV v (y :: ys) = extendV (insertV v y) ys := by
      unfold extendV
      rw [List.foldl_cons]
    rw [h1]
    exact List.Subset.trans (subset_insertV v y) (ih (insertV v y))

theorem probeList_none (ex : String → Bool) :
    ∀ l, (∀ p ∈ l, ex p = false) → probeList ex l = (l, none)
  | [], _ => rfl
  | p :: ps, h => by
    have hp : ex p = false := h p (by simp)
    rw [probeList, if_neg (by simp [hp])]
    rw [probeList_none ex ps (fun q hq => h q (by simp [hq]))]

theorem processLibs_depth_capped (env : Env) (cfg : Config) (a c : String)
    (rps : List String) (depth : Nat) (h : cfg.max_depth ≤ depth) :
    ∀ libs visited, processLibs env cfg a c rps depth libs visited = .ok ([], [], visited) := by
  intro libs
  induction libs with
  | nil =>
    intro visited
    rw [processLibs]
  | cons d rest ih =>
    intro visited
    rw [processLibs]
    by_cases h1 : d = "self" ∨ d = c
    · rw [if_pos h1]
      exact ih visited
    · rw [if_neg h1, dif_pos (by omega)]
      exact ih visited

theorem processLibs_subset (env : Env) (cfg : Config) (a c : String) (rps : List String)
    (depth : Nat) (libs visited : List String) :
    ∀ r, processLibs env cfg a c rps depth libs visited = Except.ok r → visited ⊆ r.2.2 := by
  induction a, c, rps, depth, libs, visited using processLibs.induct env cfg with
  | case1 a c rps depth visited =>
    intro r hr
    rw [processLibs] at hr
    injection hr with hr
    subst hr
    exact List.Subset.refl visited
  | case2 a c rps depth visited rp rest h1 ih =>
    intro r hr
    rw [processLibs, if_pos h1] at hr
    exact ih r hr
  | case3 a c rps depth visited rp rest h1 h2 ih =>
    intro r hr
    rw [processLibs, if_neg h1, dif_pos h2] at hr
    exact ih r hr
  | case4 a c rps depth visited rp rest h1 h2 h3 ih =>
    intro r hr
    rw [processLibs, if_neg h1, dif_neg h2, if_pos h3] at hr
    exact ih r hr
  | case5 a c rps depth visited rp rest h1 h2 h3 h4 ih =>
    intro r hr
    rw [processLibs, if_neg h1, dif_neg h2, if_neg h3, if_pos h4] at hr
    exact ih r hr
  | case6 a c rps depth visited rp rest h1 h2 h3 h4 h5 h6 ih =>
    intro r hr
    rw [processLibs, if_neg h1, dif_neg h2, if_neg h3, if_neg h4, if_pos h5, if_pos h6] at hr
    exact ih r hr
  | case7 a c rps depth visited rp rest h1 h2 h3 h4 h5 h6 e herr ih =>
    intro r hr
    rw [processLibs, if_neg h1, dif_neg h2, if_neg h3, if_neg h4, if_pos h5, if_neg h6, herr] at hr
    simp at hr
  | case8 a c rps depth visited rp rest h1 h2 h3 h4 h5 h6 ls pr v hok ih =>
    intro r hr
    obtain ⟨rl, rpr, rv⟩ := r
    rw [processLibs, if_neg h1, dif_neg h2, if_neg h3, if_neg h4, if_pos h5, if_neg h6, hok] at hr
    simp at hr
    obtain ⟨-, -, hv⟩ := hr
    subst hv
    exact ih (ls, pr, v) hok
  | case9 a c rps depth visited rp rest h1 h2 h3 h4 h5 hgpp =>
    intro r hr
    rw [processLibs, if_neg h1, dif_neg h2, if_neg h3, if_neg h4, if_neg h5, hgpp] at hr
    simp at hr
  | case10 a c rps depth visited rp rest h1 h2 h3 h4 h5 cands hgpp fp hfp msg hread =>
    intro r hr
    rw [processLibs, if_neg h1, dif_neg h2, if_neg h3, if_neg h4, if_neg h5, hgpp] at hr
    simp [hfp, hread] at hr
  | case11 a c rps depth visited rp rest h1 h2 h3 h4 h5 visited1 cands hcands fp hfp bin hread e herr ih =>
    intro r hr
    have herr2 : processLibs env cfg fp rp bin.rpaths (depth + 1) bin.libs
        (insertV visited rp) = Except.error e := herr
    rw [processLibs, if_neg h1, dif_neg h2, if_neg h3, if_neg h4, if_neg h5, hcands] at hr
    simp [hfp, hread, herr2] at hr
  | case12 a c rps depth visited rp rest h1 h2 h3 h4 h5 visited1 cands hcands fp hfp bin hread cls cpr cv hok visited2 e herr ihc ihr =>
    intro r hr
    have hok2 : processLibs env cfg fp rp bin.rpaths (depth + 1) bin.libs
        (insertV visited rp) = Except.ok (cls, cpr, cv) := hok
    have herr2 : processLibs env cfg a c rps depth rest
        (extendV (insertV visited rp) cv) = Except.error e := herr
    rw [processLibs, if_neg h1, dif_neg h2, if_neg h3, if_neg h4, if_neg h5, hcands] at hr
    simp [hfp, hread, hok2, herr2] at hr
  | case13 a c rps depth visited rp rest h1 h2 h3 h4 h5 visited1 cands hcands fp hfp bin hread cls cpr cv hok visited2 rls rpr rv hrok ihc ihr =>
    intro r hr
    obtain ⟨xl, xpr, xv⟩ := r
    have hok2 : processLibs env cfg fp rp bin.rpaths (depth + 1) bin.libs
        (insertV visited rp) = Except.ok (cls, cpr, cv) := hok
    have hrok2 : processLibs env cfg a c rps depth rest
        (extendV (insertV visited rp) cv) = Except.ok (rls, rpr, rv) := hrok
    have ihr2 : ∀ r, processLibs env cfg a c rps depth rest
        (extendV (insertV visited rp) cv) = Except.ok r →
        extendV (insertV visited rp) cv ⊆ r.2.2 := ihr
    rw [processLibs, if_neg h1, dif_neg h2, if_neg h3, if_neg h4, if_neg h5, hcands] at hr
    simp [hfp, hread, hok2, hrok2] at hr
    obtain ⟨-, -, hv⟩ := hr
    subst hv
    exact (subset_insertV visited rp).trans
      ((subset_extendV cv (insertV visited rp)).trans (ihr2 (rls, rpr, rv) hrok2))
  | case14 a c rps depth visited rp rest h1 h2 h3 h4 h5 visited1 cands hcands hnone e herr ihr =>
    intro r hr
    have herr2 : processLibs env cfg a c rps depth rest (insertV visited rp) =
        Except.error e := herr
    rw [processLibs, if_neg h1, dif_neg h2, if_neg h3, if_neg h4, if_neg h5, hcands] at hr
    simp [hnone, herr2] at hr
  | case15 a c rps depth visited rp rest h1 h2 h3 h4 h5 visited1 cands hcands hnone rls rpr rv hrok ihr =>
    intro r hr
    obtain ⟨xl, xpr, xv⟩ := r
    have hrok2 : processLibs env cfg a c rps depth rest (insertV visited rp) =
        Except.ok (rls, rpr, rv) := hrok
    have ihr2 : ∀ r, processLibs env cfg a c rps depth rest (insertV visited rp) =
        Except.ok r → insertV visited rp ⊆ r.2.2 := ihr
    rw [processLibs, if_neg h1, dif_neg h2, if_neg h3, if_neg h4, if_neg h5, hcands] at hr
    simp [hnone, hrok2] at hr
    obtain ⟨-, -, hv⟩ := hr
    subst hv
    exact (subset_insertV visited rp).trans (ihr2 (rls, rpr, rv) hrok2)

/-- C3: for reference `@rpath/libFoo.dylib` with search paths
`["@executable_path/../lib", "/usr/lib"]`, owner `/a/b/MyApp` and no system
root, `get_potential_paths` returns exactly `/a/b/../lib/libFoo.dylib` then
`/usr/lib/libFoo.dylib`, in that order. -/
theorem c3_theorem :
    get_potential_paths none "/a/b/MyApp" "@rpath/libFoo.dylib"
      ["@executable_path/../lib", "/usr/lib"] =
    some ["/a/b/../lib/libFoo.dylib", "/usr/lib/libFoo.dylib"] := by decide

/-- C4: for the literal reference `/System/Library/Frameworks/Foo.framework/Foo`
with no system root, `get_potential_paths` returns exactly 5 candidates in
order: the literal path, then the `Versions/A`, `B`, `C`, `D` rewrites. -/
theorem c4_theorem :
    get_potential_paths none "/a/b/MyApp" "/System/Library/Frameworks/Foo.framework/Foo" [] =
    some ["/System/Library/Frameworks/Foo.framework/Foo",
          "/System/Library/Frameworks/Foo.framework/Versions/A/Foo",
          "/System/Library/Frameworks/Foo.framework/Versions/B/Foo",
          "/System/Library/Frameworks/Foo.framework/Versions/C/Foo",
          "/System/Library/Frameworks/Foo.framework/Versions/D/Foo"] := by decide

/-- C5 counterexample: on `/A.framework/B.framework/Foo` the versioned
variant rewrites BOTH framework segments (the source uses `replace_all`),
so the output differs from the first-segment-only rewrite the claim
predicts. -/
theorem c5_counterexample :
    versioned_path none "/A.framework/B.framework/Foo" "A" =
      some "/A.framework/Versions/A/B.framework/Versions/A/Foo" ∧
    versioned_path none "/A.framework/B.framework/Foo" "A" ≠
      some "/A.framework/Versions/A/B.framework/Foo" := by decide

/-- Characterizes `rewriteSegs` on an arbitrary segment list: every
non-final segment matching `<name>.framework/` — each one, later ones
included — gains the `Versions/<v>` block right after it, and every other
segment (the final one included) is left unchanged. -/
theorem rewriteSegs_join (v : List Char) :
    ∀ (segs : List (List Char)) (lastSeg : List Char),
    rewriteSegs v (segs ++ [lastSeg]) =
      (segs.map (fun s =>
        if matchesFramework s then [s, ("Versions").data, v] else [s])).flatten ++ [lastSeg]
  | [], _ => rfl
  | s :: ss, lastSeg => by
    have ih := rewriteSegs_join v ss lastSeg
    obtain ⟨t, ts, hts⟩ : ∃ t ts, ss ++ [lastSeg] = t :: ts := by
      cases ss with
      | nil => exact ⟨lastSeg, [], rfl⟩
      | cons x xs => exact ⟨x, xs ++ [lastSeg], rfl⟩
    rw [List.cons_append, hts, rewriteSegs, ← hts, ih, List.map_cons, List.flatten_cons]
    by_cases hm : matchesFramework s = true
    · rw [if_pos hm, if_pos hm]
      simp
    · rw [if_neg hm, if_neg hm]
      simp

/-- C5 amended: for EVERY literal reference — decomposed into its
slash-separated segments `segs ++ [lastSeg]` — and every version string,
the versioned-framework variant inserts `Versions/<v>/` after every
segment matching `<name>.framework/`, later framework segments included,
and leaves all other segments unchanged (the source uses
`Regex::replace_all`, not a first-match replace). -/
theorem c5_theorem (lib v : String) (segs : List (List Char)) (lastSeg : List Char)
    (hsplit : splitSlash lib.data = segs ++ [lastSeg]) :
    versioned_path none lib v =
      some (String.mk (joinSlash
        ((segs.map (fun s =>
            if matchesFramework s then [s, ("Versions").data, v.data] else [s])).flatten
          ++ [lastSeg]))) := by
  rw [versioned_path_none]
  unfold frameworkRewrite
  rw [hsplit, rewriteSegs_join]

/-- C6: for every literal (non-`@rpath`) reference with no segment matching
`<name>.framework/` and no system root, every candidate equals the literal
path: the list is five copies of the literal, so the literal is the only
candidate path. -/
theorem c6_theorem (owner lib : String) (rpaths : List String)
    (h1 : strStartsWith lib "@rpath/" = false)
    (h2 : hasFrameworkSegment lib = false) :
    get_potential_paths none owner lib rpaths = some [lib, lib, lib, lib, lib] := by
  unfold get_potential_paths
  rw [if_neg (by simp [h1])]
  simp [versioned_path_none, frameworkRewrite_id lib h2]

/-- C6 witness: concrete non-framework literal reference. -/
theorem c6_witness :
    get_potential_paths none "/x" "/usr/lib/libSystem.B.dylib" [] =
      some ["/usr/lib/libSystem.B.dylib", "/usr/lib/libSystem.B.dylib",
            "/usr/lib/libSystem.B.dylib", "/usr/lib/libSystem.B.dylib",
            "/usr/lib/libSystem.B.dylib"] :=
  c6_theorem "/x" "/usr/lib/libSystem.B.dylib" [] (by decide) (by decide)

/-- Decomposes `rpathCandidates` into the concatenation of the per-entry
candidate blocks, for an arbitrary (mixed) search-path list. -/
theorem rpathCandidates_eq_combine (root : Option String) (owner suffix : String) :
    ∀ rpaths, rpathCandidates root owner suffix rpaths =
      combineEntries (rpaths.map (entryCandidates root owner suffix))
  | [] => rfl
  | rp :: rest => by
    have ih := rpathCandidates_eq_combine root owner suffix rest
    rw [List.map_cons, rpathCandidates]
    by_cases hat : (strStartsWith rp "@executable_path/" || strStartsWith rp "@loader_path/") = true
    · rw [if_pos hat]
      cases hp : parentPath owner with
      | none =>
        have he : entryCandidates root owner suffix rp = none := by
          unfold entryCandidates
          rw [if_pos hat, hp]
        rw [he, combineEntries]
      | some dir =>
        have he : entryCandidates root owner suffix rp =
            some [pushPath (pushPath dir (afterFirstSlash rp)) suffix] := by
          unfold entryCandidates
          rw [if_pos hat, hp]
        rw [he, combineEntries, ih]
        cases hc : combineEntries (rest.map (entryCandidates root owner suffix)) with
        | none => rfl
        | some l => rfl
    · rw [if_neg hat]
      cases root with
      | none =>
        have he : entryCandidates none owner suffix rp = some [pushPath rp suffix] := by
          unfold entryCandidates
          rw [if_neg hat]
        rw [he, combineEntries, ih]
        cases hc : combineEntries (rest.map (entryCandidates none owner suffix)) with
        | none => rfl
        | some l => rfl
      | some r =>
        cases hs : stripSlash rp with
        | none =>
          have he : entryCandidates (some r) owner suffix rp = none := by
            unfold entryCandidates
            rw [if_neg hat, hs]
          rw [he, combineEntries]
        | some t =>
          have he : entryCandidates (some r) owner suffix rp =
              some [pushPath rp suffix, pushPath (pushPath r t) suffix] := by
            unfold entryCandidates
            rw [if_neg hat, hs]
          rw [he, combineEntries, ih]
          cases hc : combineEntries (rest.map (entryCandidates (some r) owner suffix)) with
          | none => rfl
          | some l => rfl

/-- C7 amended: for every `@rpath/` reference and every (mixed) search-path
list, the candidate list is the in-order concatenation of per-entry blocks;
an entry beginning with `@executable_path/` or `@loader_path/` contributes
the same single block whether or not a system root is configured (no
rebased variant), while any other entry contributes its joined path alone
without a root and its joined path plus the root-rebased variant with
one. -/
theorem c7_theorem :
    (∀ (root : Option String) (owner lib : String) (rpaths : List String),
      strStartsWith lib "@rpath/" = true →
      get_potential_paths root owner lib rpaths =
        combineEntries (rpaths.map (entryCandidates root owner (afterFirstSlash lib)))) ∧
    (∀ (r owner suffix rp : String),
      (strStartsWith rp "@executable_path/" || strStartsWith rp "@loader_path/") = true →
      entryCandidates (some r) owner suffix rp = entryCandidates none owner suffix rp) ∧
    (∀ (r owner suffix rp : String),
      (strStartsWith rp "@executable_path/" || strStartsWith rp "@loader_path/") = false →
      entryCandidates none owner suffix rp = some [pushPath rp suffix] ∧
      entryCandidates (some r) owner suffix rp =
        (stripSlash rp).map
          (fun t => [pushPath rp suffix, pushPath (pushPath r t) suffix])) := by
  refine ⟨?_, ?_, ?_⟩
  · intro root owner lib rpaths h1
    unfold get_potential_paths
    rw [if_pos h1]
    exact rpathCandidates_eq_combine root owner (afterFirstSlash lib) rpaths
  · intro r owner suffix rp hat
    unfold entryCandidates
    rw [if_pos hat, if_pos hat]
  · intro r owner suffix rp hat
    constructor
    · unfold entryCandidates
      rw [if_neg (by simp [hat])]
    · unfold entryCandidates
      rw [if_neg (by simp [hat])]
      cases hs : stripSlash rp with
      | none => rfl
      | some t => rfl

/-- C7 counterexample: with a system root configured, the single candidate
from an `@executable_path/` search path has no system-root-rebased variant
in the list, contradicting the claim. -/
theorem c7_counterexample :
    get_potential_paths (some "/SC") "/a/b/M" "@rpath/libX.dylib" ["@executable_path/f"] =
      some ["/a/b/f/libX.dylib"] ∧
    (["/a/b/f/libX.dylib"].any (fun p => strStartsWith p "/SC")) = false := by decide

/-- C7 witness: a mixed search-path list under a configured system root:
the `@executable_path/` entry contributes one unrebased candidate while
the absolute entry contributes its candidate plus the rebased variant, and
the `@executable_path/` entry's block is root-independent. -/
theorem c7_witness :
    get_potential_paths (some "/SC") "/a/b/M" "@rpath/l.dylib"
      ["@executable_path/f", "/usr/lib"] =
      some ["/a/b/f/l.dylib", "/usr/lib/l.dylib", "/SC/usr/lib/l.dylib"] ∧
    entryCandidates (some "/SC") "/a/b/M" "l.dylib" "@executable_path/f" =
      entryCandidates none "/a/b/M" "l.dylib" "@executable_path/f" := by
  constructor
  · rw [c7_theorem.1 (some "/SC") "/a/b/M" "@rpath/l.dylib"
      ["@executable_path/f", "/usr/lib"] (by decide)]
    decide
  · exact c7_theorem.2.1 "/SC" "/a/b/M" "l.dylib" "@executable_path/f" (by decide)

theorem rpathCandidates_none_bad_abs (r owner suffix rp : String) :
    ∀ rpaths, rp ∈ rpaths →
    (strStartsWith rp "@executable_path/" || strStartsWith rp "@loader_path/") = false →
    strStartsWith rp "/" = false →
    rpathCandidates (some r) owner suffix rpaths = none
  | [], hmem, _, _ => absurd hmem (List.not_mem_nil rp)
  | q :: qs, hmem, hat, hsl => by
    rw [rpathCandidates]
    rcases List.mem_cons.mp hmem with hq | hq
    · subst hq
      rw [if_neg (by simp [hat]), stripSlash_none rp hsl]
    · by_cases hq1 : (strStartsWith q "@executable_path/" || strStartsWith q "@loader_path/") = true
      · rw [if_pos hq1]
        cases hp : parentPath owner with
        | none => rfl
        | some dir =>
          rw [rpathCandidates_none_bad_abs r owner suffix rp qs hq hat hsl]
          rfl
      · rw [if_neg hq1]
        cases hstrip : stripSlash q with
        | none => rfl
        | some q' =>
          rw [rpathCandidates_none_bad_abs r owner suffix rp qs hq hat hsl]
          rfl

theorem rpathCandidates_none_no_parent (root : Option String) (owner suffix rp : String) :
    ∀ rpaths, rp ∈ rpaths →
    (strStartsWith rp "@executable_path/" || strStartsWith rp "@loader_path/") = true →
    parentPath owner = none →
    rpathCandidates root owner suffix rpaths = none
  | [], hmem, _, _ => absurd hmem (List.not_mem_nil rp)
  | q :: qs, hmem, hat, hpar => by
    rw [rpathCandidates]
    rcases List.mem_cons.mp hmem with hq | hq
    · subst hq
      rw [if_pos hat, hpar]
    · by_cases hq1 : (strStartsWith q "@executable_path/" || strStartsWith q "@loader_path/") = true
      · rw [if_pos hq1, hpar]
      · rw [if_neg hq1]
        cases root with
        | none =>
          rw [rpathCandidates_none_no_parent none owner suffix rp qs hq hat hpar]
          rfl
        | some r =>
          cases hstrip : stripSlash q with
          | none => rfl
          | some q' =>
            rw [rpathCandidates_none_no_parent (some r) owner suffix rp qs hq hat hpar]
            rfl

theorem rpathCandidates_isSome (root : Option String) (owner suffix : String) :
    ∀ rpaths,
    (∀ rp ∈ rpaths,
      ((strStartsWith rp "@executable_path/" || strStartsWith rp "@loader_path/") = true →
        (parentPath owner).isSome = true) ∧
      ((strStartsWith rp "@executable_path/" || strStartsWith rp "@loader_path/") = false →
        root.isSome = true → strStartsWith rp "/" = true)) →
    (rpathCandidates root owner suffix rpaths).isSome = true
  | [], _ => rfl
  | q :: qs, h => by
    rw [rpathCandidates]
    have hrec := rpathCandidates_isSome root owner suffix qs (fun rp hrp => h rp (by simp [hrp]))
    obtain ⟨l, hl⟩ := Option.isSome_iff_exists.mp hrec
    cases hq1 : (strStartsWith q "@executable_path/" || strStartsWith q "@loader_path/") with
    | true =>
      obtain ⟨dir, hdir⟩ := Option.isSome_iff_exists.mp ((h q (by simp)).1 hq1)
      rw [if_pos rfl, hdir, hl]
      rfl
    | false =>
      rw [if_neg (by simp)]
      cases root with
      | none =>
        rw [hl]
        rfl
      | some r =>
        have hsl : strStartsWith q "/" = true := (h q (by simp)).2 hq1 rfl
        obtain ⟨cs, hdata, hstrip⟩ := stripSlash_some q hsl
        rw [hstrip, hl]
        rfl

/-- C10: `get_potential_paths` panics (returns `none` in the embedding)
exactly in the claimed cases: with a system root, a literal reference or a
non-`@`-relative search path not beginning with `/`; or an
`@executable_path/`/`@loader_path/` search path with an owner path that has
no parent.  Under the complementary preconditions it returns a candidate
list. -/
theorem c10_theorem :
    (∀ r owner lib rpaths,
      strStartsWith lib "@rpath/" = false → strStartsWith lib "/" = false →
      get_potential_paths (some r) owner lib rpaths = none) ∧
    (∀ r owner lib rpaths rp,
      strStartsWith lib "@rpath/" = true → rp ∈ rpaths →
      (strStartsWith rp "@executable_path/" || strStartsWith rp "@loader_path/") = false →
      strStartsWith rp "/" = false →
      get_potential_paths (some r) owner lib rpaths = none) ∧
    (∀ root owner lib rpaths rp,
      strStartsWith lib "@rpath/" = true → rp ∈ rpaths →
      (strStartsWith rp "@executable_path/" || strStartsWith rp "@loader_path/") = true →
      parentPath owner = none →
      get_potential_paths root owner lib rpaths = none) ∧
    (∀ root owner lib rpaths,
      (strStartsWith lib "@rpath/" = true →
        ∀ rp ∈ rpaths,
          ((strStartsWith rp "@executable_path/" || strStartsWith rp "@loader_path/") = true →
            (parentPath owner).isSome = true) ∧
          ((strStartsWith rp "@executable_path/" || strStartsWith rp "@loader_path/") = false →
            (root.isSome = true) → strStartsWith rp "/" = true)) →
      (strStartsWith lib "@rpath/" = false → root.isSome = true →
        strStartsWith lib "/" = true) →
      (get_potential_paths root owner lib rpaths).isSome = true) := by
  refine ⟨?_, ?_, ?_, ?_⟩
  · intro r owner lib rpaths h1 h2
    unfold get_potential_paths
    rw [if_neg (by simp [h1])]
    simp [versioned_path_none, stripSlash_none lib h2]
  · intro r owner lib rpaths rp h1 hmem hat hsl
    unfold get_potential_paths
    rw [if_pos h1]
    exact rpathCandidates_none_bad_abs r owner (afterFirstSlash lib) rp rpaths hmem hat hsl
  · intro root owner lib rpaths rp h1 hmem hat hpar
    unfold get_potential_paths
    rw [if_pos h1]
    exact rpathCandidates_none_no_parent root owner (afterFirstSlash lib) rp rpaths hmem hat hpar
  · intro root owner lib rpaths hA hB
    unfold get_potential_paths
    by_cases h1 : strStartsWith lib "@rpath/" = true
    · rw [if_pos h1]
      exact rpathCandidates_isSome root owner (afterFirstSlash lib) rpaths (hA h1)
    · rw [if_neg h1]
      have h1f : strStartsWith lib "@rpath/" = false := by simpa using h1
      cases root with
      | none => simp [versioned_path_none]
      | some r =>
        have hsl : strStartsWith lib "/" = true := hB h1f rfl
        obtain ⟨cs, hdata, hstrip⟩ := stripSlash_some lib hsl
        obtain ⟨qa, hqa⟩ := versioned_path_some r lib "A" hsl
        obtain ⟨qb, hqb⟩ := versioned_path_some r lib "B" hsl
        obtain ⟨qc, hqc⟩ := versioned_path_some r lib "C" hsl
        obtain ⟨qd, hqd⟩ := versioned_path_some r lib "D" hsl
        obtain ⟨ta, hta⟩ := versioned_path_some (pushPath r "System/iOSSupport") lib "A" hsl
        obtain ⟨tb, htb⟩ := versioned_path_some (pushPath r "System/iOSSupport") lib "B" hsl
        obtain ⟨tc, htc⟩ := versioned_path_some (pushPath r "System/iOSSupport") lib "C" hsl
        obtain ⟨td, htd⟩ := versioned_path_some (pushPath r "System/iOSSupport") lib "D" hsl
        simp [versioned_path_none, hstrip, hqa, hqb, hqc, hqd, hta, htb, htc, htd]

/-- C10 witness: concrete panic instances for each clause and a concrete
total instance. -/
theorem c10_witness :
    get_potential_paths (some "/SC") "/a" "rel/lib.dylib" [] = none ∧
    get_potential_paths (some "/SC") "/a" "@rpath/l.dylib" ["rel"] = none ∧
    get_potential_paths none "/" "@rpath/l.dylib" ["@executable_path/f"] = none ∧
    (get_potential_paths (some "/SC") "/a/b" "/usr/lib/l.dylib" []).isSome = true := by
  refine ⟨?_, ?_, ?_, ?_⟩
  · exact c10_theorem.1 "/SC" "/a" "rel/lib.dylib" [] (by decide) (by decide)
  · exact c10_theorem.2.1 "/SC" "/a" "@rpath/l.dylib" ["rel"] "rel" (by decide) (by simp)
      (by decide) (by decide)
  · exact c10_theorem.2.2.1 none "/" "@rpath/l.dylib" ["@executable_path/f"]
      "@executable_path/f" (by decide) (by simp) (by decide) (by decide)
  · exact c10_theorem.2.2.2 (some "/SC") "/a/b" "/usr/lib/l.dylib" []
      (fun _ rp hrp => absurd hrp (List.not_mem_nil rp)) (fun _ _ => by decide)

/-- C8: every successful call of `print_dylib_paths` returns a visited set
that is a superset of the one it was given; the embedding passes the set by
value, grows it only by `insertV` along the branch, and merges a completed
child set back with `extendV`. -/
theorem c8_theorem (env : Env) (cfg : Config) (actual canonical : String) (depth : Nat)
    (visited : List String) (r : WalkResult)
    (h : print_dylib_paths env cfg actual canonical depth visited = Except.ok r) :
    visited ⊆ r.2.2 := by
  unfold print_dylib_paths at h
  split at h
  · exact absurd h (by simp)
  · split at h
    · exact absurd h (by simp)
    · rename_i hp
      injection h with h2
      subst h2
      have hsub := processLibs_subset _ _ _ _ _ _ _ _ _ hp
      exact hsub

/-- C8 witness: the initial visited entry `x` survives into the returned
set of a concrete cyclic run. -/
theorem c8_witness : (["x"] : List String) ⊆ (["x", "/B", "/A"] : List String) :=
  c8_theorem envCycle cfgPlain "/A" "/A" 0 ["x"]
    (["/A:", "  /B:", "    /A:", "      /B"], ["/B", "/A"], ["x", "/B", "/A"])
    (by simp [print_dylib_paths, processLibs, envCycle, cfgPlain, get_potential_paths,
      probeList, insertV, extendV, indentStr, versioned_path, frameworkRewrite,
      strStartsWith, is_system_dependency, should_ignore, pushPath, stripSlash,
      afterFirstSlash, splitSlash, joinSlash, rewriteSegs, matchesFramework])

/-- C2 amended: when `depth + 1` exceeds the maximum depth, every reference
of the node is skipped entirely: the call prints only the node header,
probes nothing, and returns the visited set unchanged. -/
theorem c2_theorem (env : Env) (cfg : Config) (actual canonical : String) (depth : Nat)
    (visited : List String) (bin : MachBinary)
    (hread : env.read actual = Except.ok bin) (hd : cfg.max_depth ≤ depth) :
    print_dylib_paths env cfg actual canonical depth visited =
      Except.ok ([indentStr (depth * 2) ++ canonical ++ ":"], [], visited) := by
  unfold print_dylib_paths
  simp only [hread]
  rw [processLibs_depth_capped env cfg actual canonical bin.rpaths depth hd bin.libs visited]

/-- C2 witness: depth-0 run over a root with one existing dependency. -/
theorem c2_witness :
    print_dylib_paths envC2 cfgC2 "/R" "/R" 0 [] = Except.ok (["/R:"], [], []) :=
  c2_theorem envC2 cfgC2 "/R" "/R" 0 [] ⟨["/D"], []⟩ rfl (Nat.le_refl 0)

/-- C2 counterexample: with maximum depth 0, the dependency `/D` of `/R`
exists and has a nonempty candidate list, yet the run probes nothing and
produces no output for it — the reference is not resolved, contradicting
the claim. -/
theorem c2_counterexample :
    print_dylib_paths envC2 cfgC2 "/R" "/R" 0 [] = Except.ok (["/R:"], [], []) ∧
    envC2.pathExists "/D" = true ∧
    get_potential_paths none "/R" "/D" [] = some ["/D", "/D", "/D", "/D", "/D"] := by
  refine ⟨?_, by decide, by decide⟩
  simp [print_dylib_paths, processLibs, envC2, cfgC2, indentStr]

/-- C1 counterexample: in the cycle `/A` -> `/B` -> `/A` started at `/A`,
the back-reference to `/A` is recursed into (its header appears at depth 2)
and no duplicate-marker line for `/A` is ever printed, contradicting the
claim. -/
theorem c1_counterexample :
    print_dylib_paths envCycle cfgPlain "/A" "/A" 0 [] =
      Except.ok (["/A:", "  /B:", "    /A:", "      /B"], ["/B", "/A"], ["/B", "/A"]) ∧
    "    /A:" ∈ ["/A:", "  /B:", "    /A:", "      /B"] ∧
    "    /A" ∉ ["/A:", "  /B:", "    /A:", "      /B"] := by
  refine ⟨?_, by decide, by decide⟩
  simp [print_dylib_paths, processLibs, envCycle, cfgPlain, get_potential_paths,
    probeList, insertV, extendV, indentStr, versioned_path, frameworkRewrite,
    strStartsWith, is_system_dependency, should_ignore, pushPath, stripSlash,
    afterFirstSlash, splitSlash, joinSlash, rewriteSegs, matchesFramework]

/-- C1 amended: the cyclic traversal terminates; the back-reference to the
root `/A` is re-expanded exactly once (the root is never pre-seeded into
the visited set), and inside that expansion the reference back to `/B` is
printed exactly once as a duplicate-marker leaf. -/
theorem c1_theorem :
    print_dylib_paths envCycle cfgPlain "/A" "/A" 0 [] =
      Except.ok (["/A:", "  /B:", "    /A:", "      /B"], ["/B", "/A"], ["/B", "/A"]) ∧
    (["/A:", "  /B:", "    /A:", "      /B"].count "      /B") = 1 ∧
    (["/A:", "  /B:", "    /A:", "      /B"].count "    /A:") = 1 := by
  refine ⟨?_, by decide, by decide⟩
  simp [print_dylib_paths, processLibs, envCycle, cfgPlain, get_potential_paths,
    probeList, insertV, extendV, indentStr, versioned_path, frameworkRewrite,
    strStartsWith, is_system_dependency, should_ignore, pushPath, stripSlash,
    afterFirstSlash, splitSlash, joinSlash, rewriteSegs, matchesFramework]

/-- C9: at any traversal state, a reference that resolves to an existing
path whose read/parse fails makes the whole call return that error, while
a reference with no existing candidate adds exactly one `not found` warning
line at the child indentation and processing continues with the remaining
sibling references. -/
theorem c9_theorem (env : Env) (cfg : Config) (actual canonical : String)
    (rpaths : List String) (depth : Nat) (dylib : String) (rest visited : List String)
    (h1 : dylib ≠ "self") (h2 : dylib ≠ canonical) (h3 : depth + 1 ≤ cfg.max_depth)
    (h4 : should_ignore dylib cfg.ignores = false)
    (h5 : cfg.include_system_dependencies = true ∨ is_system_dependency dylib = false)
    (h6 : visited.contains dylib = false) :
    (∀ cands fp msg,
      get_potential_paths cfg.shared_cache_root actual dylib rpaths = some cands →
      (probeList env.pathExists cands).2 = some fp →
      env.read fp = Except.error msg →
      processLibs env cfg actual canonical rpaths depth (dylib :: rest) visited =
        Except.error (.ioError msg)) ∧
    (∀ cands,
      get_potential_paths cfg.shared_cache_root actual dylib rpaths = some cands →
      (∀ p ∈ cands, env.pathExists p = false) →
      processLibs env cfg actual canonical rpaths depth (dylib :: rest) visited =
        (processLibs env cfg actual canonical rpaths depth rest (insertV visited dylib)).map
          (fun t => ((indentStr (depth * 2 + 2) ++ dylib ++ ": warning: not found") :: t.1,
                     cands ++ t.2.1, t.2.2))) := by
  constructor
  · intro cands fp msg hcands hfp hread
    rw [processLibs, if_neg (by simp [h1, h2]), dif_neg (by omega), if_neg (by simp [h4]),
        if_neg (by rcases h5 with h | h <;> simp [h]), if_neg (by simp only [h6]; exact Bool.false_ne_true), hcands]
    simp [hfp, hread]
  · intro cands hcands hnone
    rw [processLibs, if_neg (by simp [h1, h2]), dif_neg (by omega), if_neg (by simp [h4]),
        if_neg (by rcases h5 with h | h <;> simp [h]), if_neg (by simp only [h6]; exact Bool.false_ne_true), hcands]
    simp only [probeList_none env.pathExists cands hnone]
    cases hrest : processLibs env cfg actual canonical rpaths depth rest
        (insertV visited dylib) with
    | error e => simp [hrest, Except.map]
    | ok t =>
      obtain ⟨rls, rpr, rv⟩ := t
      simp [hrest, Except.map]

/-- C9 witness: a dependency that exists but fails to read aborts the
traversal with its error. -/
theorem c9_witness :
    processLibs envErr cfgPlain "/R" "/R" [] 0 ["/D"] [] =
      Except.error (RunError.ioError "boom") :=
  (c9_theorem envErr cfgPlain "/R" "/R" [] 0 "/D" [] [] (by decide) (by decide) (by decide)
    (by decide) (Or.inr (by decide)) (by decide)).1
    ["/D", "/D", "/D", "/D", "/D"] "/D" "boom" (by decide) (by decide) rfl

/-- C5 witness: the general rewrite applied to the two-framework-segment
reference at version letter `B`: both segments gain `Versions/B/`. -/
theorem c5_witness :
    versioned_path none "/A.framework/B.framework/Foo" "B" =
      some "/A.framework/Versions/B/B.framework/Versions/B/Foo" := by
  have h := c5_theorem "/A.framework/B.framework/Foo" "B"
    [[], ("A.framework").data, ("B.framework").data] ("Foo").data (by decide)
  rw [h]
  decide
